import Mathlib

/-!
Verification of the Blokus-style rule-and-decision engine
(`src/utils/validation.js`, `src/ai/MoveGenerator.js`, `src/ai/AIController.js`,
the AI evaluator and the `useGameState` turn controller, `src/data/pieces.js`).

The JavaScript source is shallowly embedded: boards become total functions
`Fin 20 → Fin 20 → Option (Fin 4)`, shapes become `List (List Nat)` matrices,
and each exported function becomes a computable Lean definition mirroring the
source loop structure (`for` loops with early `return true` become `List.any`
over the same index ranges, in the same order).  Out-of-range array reads that
the source guards explicitly (`newRow >= 0 && newRow < 20 && ...`) are folded
into the `getCell` accessor, which returns `none` off the board exactly where
the guard would have short-circuited.
-/

namespace Blockus

/-- A piece shape: a 0/1 matrix, row-major, as in `PIECE_SHAPES`. -/
abbrev Shape := List (List Nat)

/-- `shape[r][c]` with JavaScript's out-of-range reads (`undefined === 1` is
false) modelled as the default value `0`. -/
def cellAt (shape : Shape) (r c : Nat) : Nat :=
  (shape.getD r []).getD c 0

/-- `shape.length`. -/
def shapeHeight (shape : Shape) : Nat := shape.length

/-- `shape[0].length`. -/
def shapeWidth (shape : Shape) : Nat := (shape.headD []).length

/-- The 20×20 board: each cell is empty (`none`) or holds a color id 0–3. -/
abbrev Board := Fin 20 → Fin 20 → Option (Fin 4)

/-- Read `board[r][c]` at possibly off-board integer coordinates.  The source
only reads the board either after a bounds check or behind an explicit
`0 ≤ · < 20` guard; `getCell` returns `none` exactly where such a guard fails. -/
def getCell (b : Board) (r c : Int) : Option (Fin 4) :=
  if h : 0 ≤ r ∧ r < 20 ∧ 0 ≤ c ∧ c < 20 then
    b ⟨r.toNat, by omega⟩ ⟨c.toNat, by omega⟩
  else
    none

/-- `isWithinBounds(row, col, shape, boardSize = 20)`: the anchor must be
non-negative and the shape's bounding box must fit on the board. -/
def isWithinBounds (row col : Int) (shape : Shape) (boardSize : Int := 20) : Bool :=
  decide (0 ≤ row) && decide (0 ≤ col) &&
  decide (row + (shapeHeight shape : Int) ≤ boardSize) &&
  decide (col + (shapeWidth shape : Int) ≤ boardSize)

/-- `hasOverlap(board, row, col, shape)`: some filled cell lands on an
occupied board cell. -/
def hasOverlap (b : Board) (row col : Int) (shape : Shape) : Bool :=
  (List.range (shapeHeight shape)).any fun r =>
    (List.range (shapeWidth shape)).any fun c =>
      cellAt shape r c == 1 && (getCell b (row + r) (col + c)).isSome

/-- The per-color starting corners, in the order of the `corners` array of
`touchesCorner`: (0,0), (0,19), (19,19), (19,0). -/
def cornerOf : Fin 4 → Int × Int
  | 0 => (0, 0)
  | 1 => (0, 19)
  | 2 => (19, 19)
  | 3 => (19, 0)

/-- The four diagonal directions checked by `touchesCorner`. -/
def diagDirs : List (Int × Int) := [(-1, -1), (-1, 1), (1, -1), (1, 1)]

/-- The four orthogonal directions checked by `touchesEdge`. -/
def orthoDirs : List (Int × Int) := [(-1, 0), (1, 0), (0, -1), (0, 1)]

/-- `touchesCorner(board, row, col, shape, playerId, isFirstMove)`.
First move: some filled cell lands exactly on the player's starting corner.
Later moves: some filled cell has a same-color diagonal neighbor on the board. -/
def touchesCorner (b : Board) (row col : Int) (shape : Shape) (p : Fin 4)
    (isFirstMove : Bool) : Bool :=
  if isFirstMove then
    (List.range (shapeHeight shape)).any fun r =>
      (List.range (shapeWidth shape)).any fun c =>
        cellAt shape r c == 1 &&
        (row + (r : Int) == (cornerOf p).1 && col + (c : Int) == (cornerOf p).2)
  else
    (List.range (shapeHeight shape)).any fun r =>
      (List.range (shapeWidth shape)).any fun c =>
        cellAt shape r c == 1 &&
        diagDirs.any fun d =>
          getCell b (row + (r : Int) + d.1) (col + (c : Int) + d.2) == some p

/-- `touchesEdge(board, row, col, shape, playerId)`: some filled cell has a
same-color orthogonal neighbor on the board. -/
def touchesEdge (b : Board) (row col : Int) (shape : Shape) (p : Fin 4) : Bool :=
  (List.range (shapeHeight shape)).any fun r =>
    (List.range (shapeWidth shape)).any fun c =>
      cellAt shape r c == 1 &&
      orthoDirs.any fun d =>
        getCell b (row + (r : Int) + d.1) (col + (c : Int) + d.2) == some p

/-- The result of `isValidPlacement`: `{valid, reason?}`. -/
structure ValidationResult where
  valid : Bool
  reason : Option String
deriving DecidableEq, Repr

/-- `isValidPlacement(board, row, col, shape, playerId, isFirstMove)`:
bounds, then overlap, then corner contact, then (non-first moves only) edge
exclusion, short-circuiting with the source's exact reason strings. -/
def isValidPlacement (b : Board) (row col : Int) (shape : Shape) (p : Fin 4)
    (isFirstMove : Bool) : ValidationResult :=
  if !isWithinBounds row col shape then
    { valid := false, reason := some "Out of bounds" }
  else if hasOverlap b row col shape then
    { valid := false, reason := some "Overlaps existing piece" }
  else if !touchesCorner b row col shape p isFirstMove then
    { valid := false, reason := some "Must touch corner of your pieces" }
  else if !isFirstMove && touchesEdge b row col shape p then
    { valid := false, reason := some "Cannot touch edge of your pieces" }
  else
    { valid := true, reason := none }

/-! ## Piece catalog (`src/data/pieces.js`) -/

/-- The 21 piece identifiers, the keys of `PIECE_SHAPES` in catalog order. -/
inductive PieceId where
  | MONO | DOMINO | I3 | L3 | I4 | O4 | T4 | L4 | S4
  | I5 | L5 | Y5 | N5 | V5 | T5 | Z5 | P5 | W5 | U5 | F5 | X5
deriving DecidableEq, Repr

/-- `PIECE_SHAPES`: the canonical shape of each piece. -/
def PIECE_SHAPES : PieceId → Shape
  | .MONO => [[1]]
  | .DOMINO => [[1, 1]]
  | .I3 => [[1, 1, 1]]
  | .L3 => [[1, 0], [1, 1]]
  | .I4 => [[1, 1, 1, 1]]
  | .O4 => [[1, 1], [1, 1]]
  | .T4 => [[1, 1, 1], [0, 1, 0]]
  | .L4 => [[1, 0], [1, 0], [1, 1]]
  | .S4 => [[0, 1, 1], [1, 1, 0]]
  | .I5 => [[1, 1, 1, 1, 1]]
  | .L5 => [[1, 0], [1, 0], [1, 0], [1, 1]]
  | .Y5 => [[0, 1], [1, 1], [0, 1], [0, 1]]
  | .N5 => [[0, 1], [0, 1], [1, 1], [1, 0]]
  | .V5 => [[1, 0, 0], [1, 0, 0], [1, 1, 1]]
  | .T5 => [[1, 1, 1], [0, 1, 0], [0, 1, 0]]
  | .Z5 => [[1, 1, 0], [0, 1, 0], [0, 1, 1]]
  | .P5 => [[1, 1], [1, 1], [1, 0]]
  | .W5 => [[1, 0, 0], [1, 1, 0], [0, 1, 1]]
  | .U5 => [[1, 0, 1], [1, 1, 1]]
  | .F5 => [[0, 1, 1], [1, 1, 0], [0, 1, 0]]
  | .X5 => [[0, 1, 0], [1, 1, 1], [0, 1, 0]]

/-- `Object.keys(PIECE_SHAPES)`: the piece ids in catalog (insertion) order. -/
def pieceIdsInOrder : List PieceId :=
  [.MONO, .DOMINO, .I3, .L3, .I4, .O4, .T4, .L4, .S4,
   .I5, .L5, .Y5, .N5, .V5, .T5, .Z5, .P5, .W5, .U5, .F5, .X5]

/-! ## Geometry (`src/utils/gameLogic.js`) -/

/-- `rotatePiece(shape)`: rotate 90° clockwise,
`rotated[c][rows - 1 - r] = shape[r][c]`. -/
def rotatePiece (shape : Shape) : Shape :=
  (List.range (shapeWidth shape)).map fun i =>
    (List.range (shapeHeight shape)).map fun j =>
      cellAt shape (shapeHeight shape - 1 - j) i

/-- `flipPiece(shape)`: reverse every row. -/
def flipPiece (shape : Shape) : Shape :=
  shape.map List.reverse

/-! ## Transformation generator (`src/ai/MoveGenerator.js`) -/

/-- `shapeToString(shape)`: rows joined by `''`, then by `'|'`. -/
def shapeToString (shape : Shape) : String :=
  String.intercalate "|" (shape.map fun row => String.join (row.map toString))

/-- A transformation record `{shape, rotation, flip}`. -/
structure Transformation where
  shape : Shape
  rotation : Nat
  flip : Bool
deriving DecidableEq, Repr

/-- The four rotation candidates tried for one flip state, in loop order:
the running shape starts at `s` and is rotated 90° clockwise each step. -/
def rotationCandidates (s : Shape) (flipped : Bool) : List Transformation :=
  [{ shape := s, rotation := 0, flip := flipped },
   { shape := rotatePiece s, rotation := 90, flip := flipped },
   { shape := rotatePiece (rotatePiece s), rotation := 180, flip := flipped },
   { shape := rotatePiece (rotatePiece (rotatePiece s)), rotation := 270, flip := flipped }]

/-- The `seen`-set deduplication of the transformation loop: keep a candidate
only if its `shapeToString` key has not been seen before. -/
def dedupByKey : List Transformation → List String → List Transformation
  | [], _ => []
  | t :: ts, seen =>
    if shapeToString t.shape ∈ seen then dedupByKey ts seen
    else t :: dedupByKey ts (shapeToString t.shape :: seen)

/-- `getAllTransformations(baseShape)`: flip ∈ {off,on} outer, rotation
step ∈ {0..3} inner, deduplicated by canonical string form. -/
def getAllTransformations (baseShape : Shape) : List Transformation :=
  dedupByKey (rotationCandidates baseShape false ++
              rotationCandidates (flipPiece baseShape) true) []

/-! ## Move generator (`src/ai/MoveGenerator.js`) -/

/-- A move record `{pieceId, row, col, shape, rotation, flip, pieceSize,
height, width}` as pushed by `generateAllMoves`. -/
structure Move where
  pieceId : PieceId
  row : Int
  col : Int
  shape : Shape
  rotation : Nat
  flip : Bool
  pieceSize : Nat
  height : Nat
  width : Nat
deriving DecidableEq, Repr

/-- `shape.flat().filter(cell => cell === 1).length`. -/
def pieceCellCount (s : Shape) : Nat := (s.flatten.filter (· == 1)).length

/-- The anchor scan range used by the generator: `-4 ≤ anchor < 24`. -/
def anchorRange : List Int := (List.range 28).map fun (i : Nat) => (i : Int) - 4

/-- `Object.keys(PIECE_SHAPES).filter(id => !usedPieces[playerId].includes(id))`. -/
def availablePieces (used : Fin 4 → List PieceId) (p : Fin 4) : List PieceId :=
  pieceIdsInOrder.filter fun pid => !(used p).contains pid

/-- `generateAllMoves(board, playerId, usedPieces, isFirstMove)`: for every
available piece, every deduplicated transformation and every anchor in the
extended range, keep the placements accepted by `isValidPlacement`. -/
def generateAllMoves (b : Board) (p : Fin 4) (used : Fin 4 → List PieceId)
    (isFirstMove : Bool) : List Move :=
  (availablePieces used p).flatMap fun pieceId =>
    (getAllTransformations (PIECE_SHAPES pieceId)).flatMap fun t =>
      anchorRange.flatMap fun row =>
        anchorRange.filterMap fun col =>
          if (isValidPlacement b row col t.shape p isFirstMove).valid then
            some { pieceId := pieceId, row := row, col := col, shape := t.shape,
                   rotation := t.rotation, flip := t.flip,
                   pieceSize := pieceCellCount (PIECE_SHAPES pieceId),
                   height := shapeHeight t.shape, width := shapeWidth t.shape }
          else
            none

/-! ## Turn resolver (`useGameState`, `src/unnamed/part_000`) -/

/-- The eight oriented shapes tried by `hasValidMoves`, in its loop order:
four clockwise rotations of the base shape, then four of its flip. -/
def orientedShapes (s : Shape) : List Shape :=
  [s, rotatePiece s, rotatePiece (rotatePiece s),
   rotatePiece (rotatePiece (rotatePiece s)),
   flipPiece s, rotatePiece (flipPiece s), rotatePiece (rotatePiece (flipPiece s)),
   rotatePiece (rotatePiece (rotatePiece (flipPiece s)))]

/-- `hasValidMoves(board, colorId, usedPieces, isFirstMove)`: the exhaustive
existence probe of the turn controller (stride-1 anchors, all orientations). -/
def hasValidMoves (b : Board) (c : Fin 4) (used : Fin 4 → List PieceId)
    (isFirstMove : Bool) : Bool :=
  (availablePieces used c).any fun pieceId =>
    (orientedShapes (PIECE_SHAPES pieceId)).any fun shape =>
      anchorRange.any fun row =>
        anchorRange.any fun col =>
          (isValidPlacement b row col shape c isFirstMove).valid

/-- The record returned by `findNextPlayer`; a JS return without a `gameOver`
field is falsy, so `gameOver := false` on the success path. -/
structure NextPlayerResult where
  nextPlayer : Fin 4
  updatedPlayersOut : Fin 4 → Bool
  gameOver : Bool
  newNeutralTurnPlayer : Nat
  skippedPlayers : List (Fin 4)

/-- `(c + 1) % 4`. -/
def stepColor (c : Fin 4) : Fin 4 := ⟨(c.val + 1) % 4, by omega⟩

/-- The `while (checked < 4)` loop of `findNextPlayer`, by recursion on the
remaining iteration count (`4 - checked`).  `PLAYER_MODES[3].neutralColor = 3`. -/
def fnpLoop (pc : Nat) (b : Board) (used : Fin 4 → List PieceId)
    (fm : Fin 4 → Bool) (startColor : Fin 4) :
    Nat → Fin 4 → (Fin 4 → Bool) → Nat → List (Fin 4) → NextPlayerResult
  | 0, _, out, ntp, skipped =>
      { nextPlayer := startColor, updatedPlayersOut := out, gameOver := true,
        newNeutralTurnPlayer := ntp, skippedPlayers := skipped }
  | n + 1, nextColor, out, ntp, skipped =>
      if out nextColor = false then
        if hasValidMoves b nextColor used (fm nextColor) then
          { nextPlayer := nextColor, updatedPlayersOut := out, gameOver := false,
            newNeutralTurnPlayer := ntp, skippedPlayers := skipped }
        else
          fnpLoop pc b used fm startColor n (stepColor nextColor)
            (fun c => if c = nextColor then true else out c)
            (if pc = 3 ∧ nextColor = (3 : Fin 4) then (ntp + 1) % 3 else ntp)
            (skipped ++ [nextColor])
      else
        fnpLoop pc b used fm startColor n (stepColor nextColor) out
          (if pc = 3 ∧ nextColor = (3 : Fin 4) then (ntp + 1) % 3 else ntp)
          skipped

/-- `findNextPlayer(startColor, newBoard, newUsedPieces, newFirstMoves,
newPlayersOut, currentNeutralTurnPlayer)` of the turn controller, with the
controller's `playerCount` passed explicitly. -/
def findNextPlayer (pc : Nat) (b : Board) (used : Fin 4 → List PieceId)
    (fm : Fin 4 → Bool) (startColor : Fin 4) (playersOut : Fin 4 → Bool)
    (ntp : Nat) : NextPlayerResult :=
  fnpLoop pc b used fm startColor 4 (stepColor startColor) playersOut
    (if pc = 3 ∧ startColor = (3 : Fin 4) then (ntp + 1) % 3 else ntp) []

/-! ## Game state and `placePiece` (`useGameState`, `src/unnamed/part_000`) -/

/-- One history snapshot, as pushed by `placePiece` before committing. -/
structure Snapshot where
  board : Board
  currentPlayer : Fin 4
  usedPieces : Fin 4 → List PieceId
  firstMoves : Fin 4 → Bool
  playersOut : Fin 4 → Bool
  neutralTurnPlayer : Nat

/-- The engine-relevant part of the `useGameState` hook state. -/
structure GameState where
  playerCount : Nat
  board : Board
  currentPlayer : Fin 4
  usedPieces : Fin 4 → List PieceId
  firstMoves : Fin 4 → Bool
  playersOut : Fin 4 → Bool
  neutralTurnPlayer : Nat
  history : List Snapshot
  gameOver : Bool

/-- Whether some filled cell of `shape`, anchored at `(row, col)`, covers the
board cell `(i, j)`. -/
def coversCell (shape : Shape) (row col : Int) (i j : Fin 20) : Bool :=
  (List.range (shapeHeight shape)).any fun r =>
    (List.range (shapeWidth shape)).any fun c =>
      cellAt shape r c == 1 && row + (r : Int) == (i : Int) && col + (c : Int) == (j : Int)

/-- The board-update loop of `placePiece`: write `currentPlayer` into every
cell covered by a filled shape cell.  The writes in the source are unguarded,
but on the only path that reaches them the bounds check has already confined
every filled cell to the board. -/
def commitShape (b : Board) (row col : Int) (shape : Shape) (p : Fin 4) : Board :=
  fun i j => if coversCell shape row col i j then some p else b i j

/-- The result of a `placePiece` call together with the state it leaves
behind (the source applies the same updates through React setters). -/
structure PlaceResult where
  success : Bool
  reason : Option String
  skippedPlayers : List (Fin 4)
  state : GameState

/-- `placePiece(row, col, shape, pieceId)`: validate against the current
board and first-move flag; on failure return the reason and leave the state
untouched; on success push a snapshot, commit the shape, append the piece id
to the mover's used list, clear the mover's first-move flag, and advance the
turn with `findNextPlayer`. -/
def placePiece (s : GameState) (row col : Int) (shape : Shape)
    (pieceId : PieceId) : PlaceResult :=
  let v := isValidPlacement s.board row col shape s.currentPlayer
             (s.firstMoves s.currentPlayer)
  if v.valid = false then
    { success := false, reason := v.reason, skippedPlayers := [], state := s }
  else
    let snap : Snapshot :=
      { board := s.board, currentPlayer := s.currentPlayer,
        usedPieces := s.usedPieces, firstMoves := s.firstMoves,
        playersOut := s.playersOut, neutralTurnPlayer := s.neutralTurnPlayer }
    let newBoard := commitShape s.board row col shape s.currentPlayer
    let newUsed := fun c =>
      if c = s.currentPlayer then s.usedPieces s.currentPlayer ++ [pieceId]
      else s.usedPieces c
    let newFM :=
      if s.firstMoves s.currentPlayer then
        fun c => if c = s.currentPlayer then false else s.firstMoves c
      else s.firstMoves
    let r := findNextPlayer s.playerCount newBoard newUsed newFM
               s.currentPlayer s.playersOut s.neutralTurnPlayer
    { success := true, reason := none, skippedPlayers := r.skippedPlayers,
      state :=
      { playerCount := s.playerCount, board := newBoard,
        currentPlayer := r.nextPlayer, usedPieces := newUsed,
        firstMoves := newFM, playersOut := r.updatedPlayersOut,
        neutralTurnPlayer := r.newNeutralTurnPlayer,
        history := s.history ++ [snap],
        gameOver := s.gameOver || r.gameOver } }

/-! ## Move evaluator and AI controller (`selectMove`, `AIController.js`)

The tier scoring formulas mix IEEE floating-point arithmetic (`Math.sqrt`,
`* 0.4`) with the unseeded global `Math.random()`; the numeric score a tier
assigns to a candidate is therefore abstracted as an oracle `score : Move → ℚ`
(the spec itself flags the global RNG as non-reproducible).  The selection
pipeline around it — score-map, descending sort, top-K slice, random index —
is embedded exactly; `q` is the `Math.random()` draw used for the final pick. -/

/-- A scored move: `{...move, score}`. -/
structure ScoredMove where
  toMove : Move
  score : ℚ
deriving DecidableEq, Repr

/-- The descending comparator `(a, b) => b.score - a.score`. -/
def scoreDesc (a b : ScoredMove) : Prop := b.score ≤ a.score

instance : DecidableRel scoreDesc := fun a b =>
  inferInstanceAs (Decidable (b.score ≤ a.score))

/-- `topMoves[Math.floor(q * topMoves.length)]`. -/
def pickIndex (q : ℚ) (len : Nat) : Nat := Nat.floor (q * len)

/-- `selectEasyMove`: score, sort descending, keep the top
`Math.max(1, Math.floor(moves.length * 0.4))`, pick at the random index. -/
def selectEasyMove (score : Move → ℚ) (q : ℚ) (moves : List Move) :
    Option ScoredMove :=
  let scored := moves.map fun m => ScoredMove.mk m (score m)
  let sorted := List.insertionSort scoreDesc scored
  let top := sorted.take (max 1 (Nat.floor ((moves.length : ℚ) * (0.4 : ℚ))))
  top.get? (pickIndex q top.length)

/-- `selectMediumMove`: as `selectEasyMove` but keeping the top
`Math.min(5, scoredMoves.length)`. -/
def selectMediumMove (score : Move → ℚ) (q : ℚ) (moves : List Move) :
    Option ScoredMove :=
  let scored := moves.map fun m => ScoredMove.mk m (score m)
  let sorted := List.insertionSort scoreDesc scored
  let top := sorted.take (min 5 sorted.length)
  top.get? (pickIndex q top.length)

/-- `selectHardMove`: as `selectEasyMove` but keeping the top
`Math.min(3, scoredMoves.length)`. -/
def selectHardMove (score : Move → ℚ) (q : ℚ) (moves : List Move) :
    Option ScoredMove :=
  let scored := moves.map fun m => ScoredMove.mk m (score m)
  let sorted := List.insertionSort scoreDesc scored
  let top := sorted.take (min 3 sorted.length)
  top.get? (pickIndex q top.length)

/-- `selectMove(moves, ..., difficulty, ...)`: null on an empty list, then
dispatch on the difficulty string, defaulting to the easy selector. -/
def selectMove (score : Move → ℚ) (q : ℚ) (moves : List Move)
    (difficulty : String) : Option ScoredMove :=
  if moves.length = 0 then none
  else
    match difficulty with
    | "easy" => selectEasyMove score q moves
    | "medium" => selectMediumMove score q moves
    | "hard" => selectHardMove score q moves
    | _ => selectEasyMove score q moves

/-- `generateAIMove(board, playerId, usedPieces, isFirstMove, difficulty, ...)`:
generate all legal moves, return null when there are none, otherwise select. -/
def generateAIMove (score : Move → ℚ) (q : ℚ) (b : Board) (p : Fin 4)
    (used : Fin 4 → List PieceId) (isFirstMove : Bool) (difficulty : String) :
    Option ScoredMove :=
  let allMoves := generateAllMoves b p used isFirstMove
  if allMoves.length = 0 then none
  else selectMove score q allMoves difficulty

/-! ## Helper lemmas -/

/-- Concrete boards used by witnesses: the empty board. -/
def emptyBoard : Board := fun _ _ => none

lemma any_range_iff {n : Nat} {f : Nat → Bool} :
    (List.range n).any f = true ↔ ∃ i : Fin n, f i.val = true := by
  simp only [List.any_eq_true, List.mem_range]
  exact ⟨fun ⟨x, hx, hf⟩ => ⟨⟨x, hx⟩, hf⟩, fun ⟨i, hf⟩ => ⟨i.val, i.isLt, hf⟩⟩

lemma isWithinBounds_iff {row col : Int} {shape : Shape} :
    isWithinBounds row col shape = true ↔
      0 ≤ row ∧ 0 ≤ col ∧ row + (shapeHeight shape : Int) ≤ 20 ∧
      col + (shapeWidth shape : Int) ≤ 20 := by
  simp only [isWithinBounds, Bool.and_eq_true, decide_eq_true_eq]
  tauto

lemma touchesCorner_first_iff {b : Board} {row col : Int} {shape : Shape}
    {p : Fin 4} :
    touchesCorner b row col shape p true = true ↔
      ∃ (r : Fin (shapeHeight shape)) (c : Fin (shapeWidth shape)),
        cellAt shape r.val c.val = 1 ∧ row + (r.val : Int) = (cornerOf p).1 ∧
        col + (c.val : Int) = (cornerOf p).2 := by
  simp only [touchesCorner, if_true, any_range_iff, Bool.and_eq_true, beq_iff_eq]

lemma touchesCorner_diag_iff {b : Board} {row col : Int} {shape : Shape}
    {p : Fin 4} :
    touchesCorner b row col shape p false = true ↔
      ∃ (r : Fin (shapeHeight shape)) (c : Fin (shapeWidth shape)),
        cellAt shape r.val c.val = 1 ∧ ∃ d ∈ diagDirs,
          getCell b (row + (r.val : Int) + d.1) (col + (c.val : Int) + d.2) = some p := by
  simp only [touchesCorner, if_false, Bool.false_eq_true, List.any_eq_true,
    List.mem_range, Bool.and_eq_true, beq_iff_eq]
  constructor
  · rintro ⟨r, hr, c, hc, h1, h2⟩; exact ⟨⟨r, hr⟩, ⟨c, hc⟩, h1, h2⟩
  · rintro ⟨r, c, h1, h2⟩; exact ⟨r.val, r.isLt, c.val, c.isLt, h1, h2⟩

lemma touchesEdge_iff {b : Board} {row col : Int} {shape : Shape} {p : Fin 4} :
    touchesEdge b row col shape p = true ↔
      ∃ (r : Fin (shapeHeight shape)) (c : Fin (shapeWidth shape)),
        cellAt shape r.val c.val = 1 ∧ ∃ d ∈ orthoDirs,
          getCell b (row + (r.val : Int) + d.1) (col + (c.val : Int) + d.2) = some p := by
  simp only [touchesEdge, List.any_eq_true, List.mem_range, Bool.and_eq_true,
    beq_iff_eq]
  constructor
  · rintro ⟨r, hr, c, hc, h1, h2⟩; exact ⟨⟨r, hr⟩, ⟨c, hc⟩, h1, h2⟩
  · rintro ⟨r, c, h1, h2⟩; exact ⟨r.val, r.isLt, c.val, c.isLt, h1, h2⟩

/-- Case analysis of `isValidPlacement` in terms of its four component
predicates. -/
lemma isValidPlacement_valid_iff {b : Board} {row col : Int} {shape : Shape}
    {p : Fin 4} {fm : Bool} :
    (isValidPlacement b row col shape p fm).valid = true ↔
      isWithinBounds row col shape = true ∧ hasOverlap b row col shape = false ∧
      touchesCorner b row col shape p fm = true ∧
      (fm = false → touchesEdge b row col shape p = false) := by
  unfold isValidPlacement
  cases hw : isWithinBounds row col shape <;>
    cases ho : hasOverlap b row col shape <;>
      cases hc : touchesCorner b row col shape p fm <;>
        cases fm <;> cases he : touchesEdge b row col shape p <;> simp_all

/-- An accepted placement always has its anchor on the board: the bounds
check demands a non-negative anchor and a bounding box inside the board, and
the corner-contact check demands at least one filled cell. -/
lemma valid_anchor_bounds {b : Board} {row col : Int} {shape : Shape}
    {p : Fin 4} {fm : Bool}
    (h : (isValidPlacement b row col shape p fm).valid = true) :
    0 ≤ row ∧ row < 20 ∧ 0 ≤ col ∧ col < 20 := by
  obtain ⟨hw, _, hc, _⟩ := isValidPlacement_valid_iff.mp h
  rw [isWithinBounds_iff] at hw
  have hdim : 1 ≤ shapeHeight shape ∧ 1 ≤ shapeWidth shape := by
    cases fm
    · obtain ⟨r, c, -⟩ := touchesCorner_diag_iff.mp hc
      exact ⟨r.pos, c.pos⟩
    · obtain ⟨r, c, -⟩ := touchesCorner_first_iff.mp hc
      exact ⟨r.pos, c.pos⟩
  omega

lemma mem_anchorRange {r : Int} : r ∈ anchorRange ↔ -4 ≤ r ∧ r < 24 := by
  constructor
  · intro h
    simp only [anchorRange, List.mem_map, List.mem_range] at h
    obtain ⟨i, hi, hr⟩ := h
    omega
  · intro h
    simp only [anchorRange, List.mem_map, List.mem_range]
    refine ⟨(r + 4).toNat, by omega, by omega⟩

/-! ## C2 — validation order, short-circuit, reason tags -/

/-- C2: `isValidPlacement` runs its four checks in the fixed order bounds,
overlap, corner contact, edge exclusion; it short-circuits at the first
failing check with that check's distinguishing reason string; the
edge-exclusion check is skipped entirely on a first move; a valid result
carries no reason payload.  (The function is a total pure function of its
arguments — the embedding makes non-throwing and non-mutation structural.)
In particular, a non-first-move placement that has a same-color diagonal
contact but also a same-color orthogonal neighbor is rejected with the
edge-adjacency reason. -/
theorem validator_fixed_order_short_circuit :
    ∀ (b : Board) (row col : Int) (shape : Shape) (p : Fin 4) (fm : Bool),
    (isWithinBounds row col shape = false →
      isValidPlacement b row col shape p fm =
        { valid := false, reason := some "Out of bounds" }) ∧
    (isWithinBounds row col shape = true → hasOverlap b row col shape = true →
      isValidPlacement b row col shape p fm =
        { valid := false, reason := some "Overlaps existing piece" }) ∧
    (isWithinBounds row col shape = true → hasOverlap b row col shape = false →
      touchesCorner b row col shape p fm = false →
      isValidPlacement b row col shape p fm =
        { valid := false, reason := some "Must touch corner of your pieces" }) ∧
    (fm = false → isWithinBounds row col shape = true →
      hasOverlap b row col shape = false →
      touchesCorner b row col shape p fm = true →
      touchesEdge b row col shape p = true →
      isValidPlacement b row col shape p fm =
        { valid := false, reason := some "Cannot touch edge of your pieces" }) ∧
    (fm = true → isWithinBounds row col shape = true →
      hasOverlap b row col shape = false →
      touchesCorner b row col shape p fm = true →
      isValidPlacement b row col shape p fm = { valid := true, reason := none }) ∧
    ((isValidPlacement b row col shape p fm).valid = true →
      (isValidPlacement b row col shape p fm).reason = none) ∧
    (fm = false → isWithinBounds row col shape = true →
      hasOverlap b row col shape = false →
      (∃ (r : Fin (shapeHeight shape)) (c : Fin (shapeWidth shape)),
        cellAt shape r.val c.val = 1 ∧ ∃ d ∈ diagDirs,
          getCell b (row + (r.val : Int) + d.1) (col + (c.val : Int) + d.2) = some p) →
      (∃ (r : Fin (shapeHeight shape)) (c : Fin (shapeWidth shape)),
        cellAt shape r.val c.val = 1 ∧ ∃ d ∈ orthoDirs,
          getCell b (row + (r.val : Int) + d.1) (col + (c.val : Int) + d.2) = some p) →
      isValidPlacement b row col shape p fm =
        { valid := false, reason := some "Cannot touch edge of your pieces" }) := by
  intro b row col shape p fm
  refine ⟨fun hw => ?_, fun hw ho => ?_, fun hw ho hc => ?_,
    fun hfm hw ho hc he => ?_, fun hfm hw ho hc => ?_, fun hv => ?_,
    fun hfm hw ho hdiag horth => ?_⟩
  · simp [isValidPlacement, hw]
  · simp [isValidPlacement, hw, ho]
  · simp [isValidPlacement, hw, ho, hc]
  · subst hfm; simp [isValidPlacement, hw, ho, hc, he]
  · subst hfm; simp [isValidPlacement, hw, ho, hc]
  · obtain ⟨hw, ho, hc, he⟩ := isValidPlacement_valid_iff.mp hv
    by_cases hfm : fm = false
    · have he' := he hfm
      subst hfm
      simp [isValidPlacement, hw, ho, hc, he']
    · have hfm' : fm = true := by revert hfm; cases fm <;> simp
      subst hfm'
      simp [isValidPlacement, hw, ho, hc]
  · subst hfm
    have hc : touchesCorner b row col shape p false = true :=
      touchesCorner_diag_iff.mpr hdiag
    have he : touchesEdge b row col shape p = true := touchesEdge_iff.mpr horth
    simp [isValidPlacement, hw, ho, hc, he]

/-- A board with color 0 at (0,0) and (1,0), used by the C2 witness. -/
def boardC2 : Board := fun i j =>
  if i.val = 0 ∧ j.val = 0 then some 0
  else if i.val = 1 ∧ j.val = 0 then some 0
  else none

/-- C2 witness: on `boardC2`, the 1×1 piece at (1,1) for color 0 has a
diagonal contact at (0,0) and an orthogonal contact at (1,0) and is rejected
with the edge-adjacency reason; a first-move corner placement is accepted
with no reason payload. -/
theorem validator_fixed_order_short_circuit_witness :
    isValidPlacement boardC2 1 1 [[1]] 0 false =
      { valid := false, reason := some "Cannot touch edge of your pieces" } ∧
    isValidPlacement emptyBoard 0 0 [[1]] 0 true =
      { valid := true, reason := none } :=
  ⟨(validator_fixed_order_short_circuit boardC2 1 1 [[1]] 0 false).2.2.2.1
      rfl (by decide) (by decide) (by decide) (by decide),
   (validator_fixed_order_short_circuit emptyBoard 0 0 [[1]] 0 true).2.2.2.2.1
      rfl (by decide) (by decide) (by decide)⟩

/-! ## C3 — first-move starting-corner rule -/

/-- C3: on a color's first move, an in-bounds, non-overlapping placement is
accepted iff some filled cell lands exactly on that color's assigned starting
corner — (0,0), (0,19), (19,19), (19,0) for colors 0..3 — and a first-move
placement not covering the assigned corner is always rejected. -/
theorem first_move_requires_starting_corner :
    ∀ (b : Board) (row col : Int) (shape : Shape) (p : Fin 4),
    (isWithinBounds row col shape = true → hasOverlap b row col shape = false →
      ((isValidPlacement b row col shape p true).valid = true ↔
        ∃ (r : Fin (shapeHeight shape)) (c : Fin (shapeWidth shape)),
          cellAt shape r.val c.val = 1 ∧ row + (r.val : Int) = (cornerOf p).1 ∧
          col + (c.val : Int) = (cornerOf p).2)) ∧
    ((¬ ∃ (r : Fin (shapeHeight shape)) (c : Fin (shapeWidth shape)),
        cellAt shape r.val c.val = 1 ∧ row + (r.val : Int) = (cornerOf p).1 ∧
        col + (c.val : Int) = (cornerOf p).2) →
      (isValidPlacement b row col shape p true).valid = false) ∧
    cornerOf 0 = (0, 0) ∧ cornerOf 1 = (0, 19) ∧
    cornerOf 2 = (19, 19) ∧ cornerOf 3 = (19, 0) := by
  intro b row col shape p
  refine ⟨fun hw ho => ?_, fun hnc => ?_, rfl, rfl, rfl, rfl⟩
  · rw [isValidPlacement_valid_iff, ← touchesCorner_first_iff]
    constructor
    · exact fun h => h.2.2.1
    · exact fun h => ⟨hw, ho, h, by simp⟩
  · rw [← touchesCorner_first_iff] at hnc
    have hc : touchesCorner b row col shape p true = false :=
      Bool.eq_false_iff.mpr hnc
    cases hv : (isValidPlacement b row col shape p true).valid
    · rfl
    · exact absurd (isValidPlacement_valid_iff.mp hv).2.2.1 (by simp [hc])

/-- C3 witness: on the empty board, color 0's 1×1 first move at its corner
(0,0) is accepted, and at (5,5) — in-bounds, non-overlapping, but off the
corner — it is rejected. -/
theorem first_move_requires_starting_corner_witness :
    (isValidPlacement emptyBoard 0 0 [[1]] 0 true).valid = true ∧
    (isValidPlacement emptyBoard 5 5 [[1]] 0 true).valid = false :=
  ⟨((first_move_requires_starting_corner emptyBoard 0 0 [[1]] 0).1
      (by decide) (by decide)).mpr ⟨⟨0, by decide⟩, ⟨0, by decide⟩, by decide,
        by decide, by decide⟩,
   (first_move_requires_starting_corner emptyBoard 5 5 [[1]] 0).2.1 (by decide)⟩

/-! ## C4 — what the bounds stage really tests -/

/-- C4 counterexample: at anchor (−1, 0) the non-tight shape `[[0],[1]]` has
its single filled cell at board position (0,0) — inside [0,20)×[0,20) — yet
`isValidPlacement` returns the out-of-bounds failure, because the bounds
stage tests the bounding box, not the filled cells.  This refutes the claimed
equivalence at a concrete input. -/
theorem bounds_filled_cell_counterexample :
    (isValidPlacement emptyBoard (-1) 0 [[0], [1]] 0 true).reason =
      some "Out of bounds" ∧
    ¬ ∃ (r : Fin (shapeHeight [[0], [1]])) (c : Fin (shapeWidth [[0], [1]])),
        cellAt [[0], [1]] r.val c.val = 1 ∧
        ¬(0 ≤ -1 + (r.val : Int) ∧ -1 + (r.val : Int) < 20 ∧
          0 ≤ 0 + (c.val : Int) ∧ 0 + (c.val : Int) < 20) := by
  constructor
  · decide
  · decide

/-- C4 (amended): the bounds stage accepts exactly the placements whose
bounding box — anchor non-negative, anchor plus shape height/width at most
20 — fits the board; `isValidPlacement` returns the out-of-bounds failure
iff the box does not fit.  A filled cell falling outside the board still
implies the out-of-bounds failure (the direction of the original claim that
survives). -/
theorem bounds_stage_checks_bounding_box :
    ∀ (b : Board) (row col : Int) (shape : Shape) (p : Fin 4) (fm : Bool),
    shape ≠ [] →
    (((isValidPlacement b row col shape p fm).reason = some "Out of bounds") ↔
      ¬(0 ≤ row ∧ 0 ≤ col ∧ row + (shapeHeight shape : Int) ≤ 20 ∧
        col + (shapeWidth shape : Int) ≤ 20)) ∧
    ((∃ (r : Fin (shapeHeight shape)) (c : Fin (shapeWidth shape)),
        cellAt shape r.val c.val = 1 ∧
        ¬(0 ≤ row + (r.val : Int) ∧ row + (r.val : Int) < 20 ∧
          0 ≤ col + (c.val : Int) ∧ col + (c.val : Int) < 20)) →
      (isValidPlacement b row col shape p fm).reason = some "Out of bounds") := by
  intro b row col shape p fm hne
  have hOOB : ((isValidPlacement b row col shape p fm).reason =
      some "Out of bounds") ↔ isWithinBounds row col shape = false := by
    rcases hr : isValidPlacement b row col shape p fm with ⟨v, reason⟩
    unfold isValidPlacement at hr
    split at hr
    · rename_i hw
      cases hr
      simp only [Bool.not_eq_eq_eq_not, Bool.not_true] at hw
      simp [hw]
    · rename_i hw
      simp only [Bool.not_eq_eq_eq_not, Bool.not_true, Bool.not_eq_false] at hw
      split at hr
      · cases hr; simp [hw]
      · split at hr
        · cases hr; simp [hw]
        · split at hr
          · cases hr; simp [hw]
          · cases hr; simp [hw]
  constructor
  · rw [hOOB]
    rw [← isWithinBounds_iff]
    exact ⟨fun h => by simp [h], fun h => Bool.eq_false_iff.mpr h⟩
  · rintro ⟨r, c, h1, h2⟩
    rw [hOOB]
    have hr := r.isLt
    have hc := c.isLt
    apply Bool.eq_false_iff.mpr
    intro hb
    rw [isWithinBounds_iff] at hb
    exact h2 (by omega)

/-- C4 witness: the 1×1 piece anchored at (25,0) is reported out of bounds,
and anchored at (0,0) it is not. -/
theorem bounds_stage_checks_bounding_box_witness :
    (isValidPlacement emptyBoard 25 0 [[1]] 0 true).reason =
      some "Out of bounds" ∧
    (isValidPlacement emptyBoard 0 0 [[1]] 0 true).reason ≠
      some "Out of bounds" :=
  ⟨(bounds_stage_checks_bounding_box emptyBoard 25 0 [[1]] 0 true
      (by decide)).1.mpr (by decide),
   fun h => (bounds_stage_checks_bounding_box emptyBoard 0 0 [[1]] 0 true
      (by decide)).1.mp h (by decide)⟩

/-! ## C6 — transformation deduplication and symmetry counts -/

lemma dedupByKey_nodup_keys :
    ∀ (l : List Transformation) (seen : List String),
      ((dedupByKey l seen).map fun t => shapeToString t.shape).Nodup ∧
      ∀ k ∈ seen, k ∉ (dedupByKey l seen).map fun t => shapeToString t.shape := by
  intro l
  induction l with
  | nil => intro seen; exact ⟨List.nodup_nil, by simp [dedupByKey]⟩
  | cons t ts ih =>
    intro seen
    by_cases h : shapeToString t.shape ∈ seen
    · simpa only [dedupByKey, if_pos h] using ih seen
    · obtain ⟨ihn, ihs⟩ := ih (shapeToString t.shape :: seen)
      simp only [dedupByKey, if_neg h, List.map_cons, List.nodup_cons]
      refine ⟨⟨ihs _ (List.mem_cons_self _ _), ihn⟩, fun k hk => ?_⟩
      simp only [List.mem_cons]
      rintro (rfl | hmem)
      · exact h hk
      · exact ihs k (List.mem_cons_of_mem _ hk) hmem

lemma dedupByKey_length_le :
    ∀ (l : List Transformation) (seen : List String),
      (dedupByKey l seen).length ≤ l.length := by
  intro l
  induction l with
  | nil => intro seen; simp [dedupByKey]
  | cons t ts ih =>
    intro seen
    by_cases h : shapeToString t.shape ∈ seen
    · simp only [dedupByKey, if_pos h, List.length_cons]
      exact Nat.le_succ_of_le (ih seen)
    · simp only [dedupByKey, if_neg h, List.length_cons]
      exact Nat.succ_le_succ (ih _)

/-- C6: for every canonical shape, `getAllTransformations` returns pairwise
structurally distinct shape matrices (their row-major string keys are
pairwise distinct, hence so are the matrices), never more than 8 of them;
and it returns exactly 1 variant for `MONO` and `O4` and exactly 8 for the
fully asymmetric pentominoes `F5` and `N5`. -/
theorem transformations_distinct_and_counts :
    (∀ s : Shape,
      (((getAllTransformations s).map fun t => shapeToString t.shape).Nodup ∧
       ((getAllTransformations s).map fun t => t.shape).Nodup ∧
       (getAllTransformations s).length ≤ 8)) ∧
    (getAllTransformations (PIECE_SHAPES .MONO)).length = 1 ∧
    (getAllTransformations (PIECE_SHAPES .O4)).length = 1 ∧
    (getAllTransformations (PIECE_SHAPES .F5)).length = 8 ∧
    (getAllTransformations (PIECE_SHAPES .N5)).length = 8 := by
  refine ⟨fun s => ?_, by decide, by decide, by decide, by decide⟩
  have hkeys := (dedupByKey_nodup_keys (rotationCandidates s false ++
    rotationCandidates (flipPiece s) true) []).1
  refine ⟨hkeys, ?_, ?_⟩
  · apply List.Nodup.of_map shapeToString
    rw [List.map_map]
    exact hkeys
  · calc (getAllTransformations s).length
        ≤ (rotationCandidates s false ++
           rotationCandidates (flipPiece s) true).length :=
          dedupByKey_length_le _ _
      _ = 8 := by simp [rotationCandidates]

/-! ## C1 — every generated move revalidates -/

/-- Membership characterization of `generateAllMoves`: exactly the records
built from an available piece, one of its deduplicated transformations and a
pair of scanned anchors whose placement the validator accepts. -/
lemma mem_generateAllMoves {b : Board} {p : Fin 4} {used : Fin 4 → List PieceId}
    {fm : Bool} {m : Move} :
    m ∈ generateAllMoves b p used fm ↔
      ∃ pid ∈ availablePieces used p,
      ∃ t ∈ getAllTransformations (PIECE_SHAPES pid),
      ∃ row ∈ anchorRange, ∃ col ∈ anchorRange,
        (isValidPlacement b row col t.shape p fm).valid = true ∧
        m = { pieceId := pid, row := row, col := col, shape := t.shape,
              rotation := t.rotation, flip := t.flip,
              pieceSize := pieceCellCount (PIECE_SHAPES pid),
              height := shapeHeight t.shape, width := shapeWidth t.shape } := by
  simp only [generateAllMoves, List.mem_flatMap, List.mem_filterMap]
  constructor
  · rintro ⟨pid, hpid, t, ht, row, hrow, col, hcol, hm⟩
    split at hm
    · rename_i hv
      exact ⟨pid, hpid, t, ht, row, hrow, col, hcol, hv,
        (Option.some.inj hm).symm⟩
    · exact absurd hm (by simp)
  · rintro ⟨pid, hpid, t, ht, row, hrow, col, hcol, hv, rfl⟩
    exact ⟨pid, hpid, t, ht, row, hrow, col, hcol, by rw [if_pos hv]⟩

/-- C1: every move in the list returned by `generateAllMoves`, re-checked by
`isValidPlacement` at that move's row, column and shape with the same board,
color id and first-move flag, is valid. -/
theorem generated_moves_revalidate :
    ∀ (b : Board) (p : Fin 4) (used : Fin 4 → List PieceId) (fm : Bool)
      (m : Move), m ∈ generateAllMoves b p used fm →
      (isValidPlacement b m.row m.col m.shape p fm).valid = true := by
  intro b p used fm m hm
  obtain ⟨pid, -, t, -, row, -, col, -, hv, rfl⟩ := mem_generateAllMoves.mp hm
  exact hv

/-- Concrete used-pieces map: color 0 has used every piece except `MONO`,
the other colors have used everything. -/
def usedAllButMono : Fin 4 → List PieceId := fun c =>
  if c = 0 then
    [.DOMINO, .I3, .L3, .I4, .O4, .T4, .L4, .S4,
     .I5, .L5, .Y5, .N5, .V5, .T5, .Z5, .P5, .W5, .U5, .F5, .X5]
  else pieceIdsInOrder

/-- The single legal first move of color 0 with only `MONO` left: the 1×1
piece on the starting corner (0,0). -/
def monoMove : Move :=
  { pieceId := .MONO, row := 0, col := 0, shape := [[1]], rotation := 0,
    flip := false, pieceSize := 1, height := 1, width := 1 }

/-- C1 witness: on the empty board, color 0's first-move `MONO` placement at
(0,0) is produced by the generator and revalidates. -/
theorem generated_moves_revalidate_witness :
    monoMove ∈ generateAllMoves emptyBoard 0 usedAllButMono true ∧
    (isValidPlacement emptyBoard monoMove.row monoMove.col monoMove.shape 0
      true).valid = true :=
  have hmem : monoMove ∈ generateAllMoves emptyBoard 0 usedAllButMono true := by
    decide
  ⟨hmem, generated_moves_revalidate emptyBoard 0 usedAllButMono true monoMove hmem⟩

/-! ## C7 — the extended anchor range is not necessary -/

/-- C7 counterexample (negation of the claim's existential part): there is no
board, anchor, shape, color or first-move flag at which `isValidPlacement`
accepts a placement whose anchor row or column lies outside [0,20) — the
bounds stage requires the anchor itself to be a non-negative on-board cell, so
scanning anchors in [-4,24) beyond [0,20) can never contribute a move. -/
theorem extended_anchor_never_accepted :
    ¬ ∃ (b : Board) (row col : Int) (shape : Shape) (p : Fin 4) (fm : Bool),
        (isValidPlacement b row col shape p fm).valid = true ∧
        (row < 0 ∨ 20 ≤ row ∨ col < 0 ∨ 20 ≤ col) := by
  rintro ⟨b, row, col, shape, p, fm, hv, hout⟩
  have h := valid_anchor_bounds hv
  omega

/-- C7 (amended): `generateAllMoves` does scan every anchor row and column in
the extended range [-4,24) on each axis, and a candidate is kept exactly when
the validator accepts it; but the extension beyond the board is superfluous —
every accepted move's anchor row and column lie inside [0,20), because the
bounds check requires the bounding-box origin itself to be on the board. -/
theorem anchor_scan_range_and_redundancy :
    (∀ r : Int, r ∈ anchorRange ↔ -4 ≤ r ∧ r < 24) ∧
    (∀ (b : Board) (p : Fin 4) (used : Fin 4 → List PieceId) (fm : Bool)
       (m : Move), m ∈ generateAllMoves b p used fm →
       0 ≤ m.row ∧ m.row < 20 ∧ 0 ≤ m.col ∧ m.col < 20) := by
  refine ⟨fun r => mem_anchorRange, fun b p used fm m hm => ?_⟩
  obtain ⟨pid, -, t, -, row, -, col, -, hv, rfl⟩ := mem_generateAllMoves.mp hm
  exact valid_anchor_bounds hv

/-- C7 witness: the scan range contains −4 and stops before 24, and the
concrete generated move `monoMove` has its anchor on the board. -/
theorem anchor_scan_range_and_redundancy_witness :
    ((-4 : Int) ∈ anchorRange ∧ (24 : Int) ∉ anchorRange) ∧
    (0 ≤ monoMove.row ∧ monoMove.row < 20 ∧ 0 ≤ monoMove.col ∧
      monoMove.col < 20) :=
  ⟨⟨(anchor_scan_range_and_redundancy.1 (-4)).mpr (by decide),
    fun h => by
      have h24 := (anchor_scan_range_and_redundancy.1 24).mp h
      omega⟩,
   anchor_scan_range_and_redundancy.2 emptyBoard 0 usedAllButMono true monoMove
     (by decide)⟩

/-! ## C5 — the turn resolver's out/terminal contract -/

lemma pieceIds_complete : ∀ pid : PieceId, pid ∈ pieceIdsInOrder := by
  intro pid; cases pid <;> simp [pieceIdsInOrder]

lemma availablePieces_mem {used : Fin 4 → List PieceId} {p : Fin 4}
    {pid : PieceId} : pid ∈ availablePieces used p ↔ pid ∉ used p := by
  simp [availablePieces, List.mem_filter, pieceIds_complete]

/-- The turn controller's exhaustive probe succeeds iff some not-yet-used
piece has some orientation with some accepted anchor — anywhere in ℤ², since
an accepted anchor always lies inside the scanned window. -/
lemma hasValidMoves_iff {b : Board} {c : Fin 4} {used : Fin 4 → List PieceId}
    {fm' : Bool} :
    hasValidMoves b c used fm' = true ↔
      ∃ pid : PieceId, pid ∉ used c ∧
        ∃ s ∈ orientedShapes (PIECE_SHAPES pid), ∃ row col : Int,
          (isValidPlacement b row col s c fm').valid = true := by
  unfold hasValidMoves
  simp only [List.any_eq_true]
  constructor
  · rintro ⟨pid, hpid, s, hs, row, hrow, col, hcol, hv⟩
    exact ⟨pid, availablePieces_mem.mp hpid, s, hs, row, col, hv⟩
  · rintro ⟨pid, hpid, s, hs, row, col, hv⟩
    have hb := valid_anchor_bounds hv
    exact ⟨pid, availablePieces_mem.mpr hpid, s, hs,
      row, mem_anchorRange.mpr (by omega), col, mem_anchorRange.mpr (by omega), hv⟩

/-- `(c + k) % 4`: the color visited `k` steps after `c` in the cyclic walk. -/
def advColor (c : Fin 4) (k : Nat) : Fin 4 := ⟨(c.val + k) % 4, by omega⟩

lemma advColor_zero (c : Fin 4) : advColor c 0 = c := by
  simp [advColor, Fin.ext_iff, Nat.mod_eq_of_lt c.isLt]

lemma advColor_succ (c : Fin 4) (k : Nat) :
    advColor c (k + 1) = advColor (stepColor c) k := by
  simp only [advColor, stepColor, Fin.ext_iff]
  omega

lemma advColor_coverage :
    ∀ (sc c : Fin 4), ∃ k : Fin 4, advColor (stepColor sc) k.val = c := by
  decide

lemma fnpLoop_preserves_out (pc : Nat) (b : Board) (used : Fin 4 → List PieceId)
    (fm : Fin 4 → Bool) (sc : Fin 4) :
    ∀ (n : Nat) (nc : Fin 4) (out : Fin 4 → Bool) (ntp : Nat)
      (sk : List (Fin 4)) (c : Fin 4), out c = true →
      (fnpLoop pc b used fm sc n nc out ntp sk).updatedPlayersOut c = true := by
  intro n
  induction n with
  | zero => intro nc out ntp sk c hc; simpa [fnpLoop] using hc
  | succ n ih =>
    intro nc out ntp sk c hc
    simp only [fnpLoop]
    split
    · split
      · simpa using hc
      · apply ih
        by_cases hcn : c = nc
        · simp [hcn]
        · simpa [hcn] using hc
    · exact ih _ _ _ _ c hc

lemma fnpLoop_marks_only_stuck (pc : Nat) (b : Board)
    (used : Fin 4 → List PieceId) (fm : Fin 4 → Bool) (sc : Fin 4) :
    ∀ (n : Nat) (nc : Fin 4) (out : Fin 4 → Bool) (ntp : Nat)
      (sk : List (Fin 4)) (c : Fin 4),
      (fnpLoop pc b used fm sc n nc out ntp sk).updatedPlayersOut c = true →
      out c = true ∨ hasValidMoves b c used (fm c) = false := by
  intro n
  induction n with
  | zero => intro nc out ntp sk c hc; exact Or.inl (by simpa [fnpLoop] using hc)
  | succ n ih =>
    intro nc out ntp sk c hc
    simp only [fnpLoop] at hc
    split at hc
    · split at hc
      · exact Or.inl (by simpa using hc)
      · rename_i hnv
        rcases ih _ _ _ _ c hc with h' | h'
        · by_cases hcn : c = nc
          · subst hcn
            exact Or.inr (Bool.not_eq_true _ ▸ (by simpa using hnv))
          · exact Or.inl (by simpa [hcn] using h')
        · exact Or.inr h'
    · exact ih _ _ _ _ c hc

lemma fnpLoop_success (pc : Nat) (b : Board) (used : Fin 4 → List PieceId)
    (fm : Fin 4 → Bool) (sc : Fin 4) :
    ∀ (n : Nat) (nc : Fin 4) (out : Fin 4 → Bool) (ntp : Nat)
      (sk : List (Fin 4)),
      (fnpLoop pc b used fm sc n nc out ntp sk).gameOver = false →
      (fnpLoop pc b used fm sc n nc out ntp sk).updatedPlayersOut
        (fnpLoop pc b used fm sc n nc out ntp sk).nextPlayer = false ∧
      hasValidMoves b (fnpLoop pc b used fm sc n nc out ntp sk).nextPlayer used
        (fm (fnpLoop pc b used fm sc n nc out ntp sk).nextPlayer) = true := by
  intro n
  induction n with
  | zero => intro nc out ntp sk h; simp [fnpLoop] at h
  | succ n ih =>
    intro nc out ntp sk h
    simp only [fnpLoop] at h ⊢
    by_cases h1 : out nc = false
    · by_cases h2 : hasValidMoves b nc used (fm nc) = true
      · rw [if_pos h1, if_pos h2]
        exact ⟨h1, h2⟩
      · rw [if_pos h1, if_neg h2] at h ⊢
        exact ih _ _ _ _ h
    · rw [if_neg h1] at h ⊢
      exact ih _ _ _ _ h

lemma fnpLoop_gameOver_all_out (pc : Nat) (b : Board)
    (used : Fin 4 → List PieceId) (fm : Fin 4 → Bool) (sc : Fin 4) :
    ∀ (n : Nat) (nc : Fin 4) (out : Fin 4 → Bool) (ntp : Nat)
      (sk : List (Fin 4)),
      (∀ c : Fin 4, out c = true ∨ ∃ k, k < n ∧ advColor nc k = c) →
      (fnpLoop pc b used fm sc n nc out ntp sk).gameOver = true →
      ∀ c : Fin 4,
        (fnpLoop pc b used fm sc n nc out ntp sk).updatedPlayersOut c = true := by
  intro n
  induction n with
  | zero =>
    intro nc out ntp sk hcov hgo c
    rcases hcov c with h | ⟨k, hk, -⟩
    · simpa [fnpLoop] using h
    · omega
  | succ n ih =>
    intro nc out ntp sk hcov hgo c
    simp only [fnpLoop] at hgo ⊢
    by_cases h1 : out nc = false
    · by_cases h2 : hasValidMoves b nc used (fm nc) = true
      · rw [if_pos h1, if_pos h2] at hgo
        simp at hgo
      · rw [if_pos h1, if_neg h2] at hgo ⊢
        refine ih _ _ _ _ ?_ hgo c
        intro c'
        rcases hcov c' with hc' | ⟨k, hk, hadv⟩
        · left; by_cases hcn : c' = nc <;> simp [hcn, hc']
        · cases k with
          | zero =>
            rw [advColor_zero] at hadv
            left; simp [hadv]
          | succ j =>
            right
            exact ⟨j, by omega, by rw [← advColor_succ]; exact hadv⟩
    · rw [if_neg h1] at hgo ⊢
      refine ih _ _ _ _ ?_ hgo c
      intro c'
      rcases hcov c' with hc' | ⟨k, hk, hadv⟩
      · exact Or.inl hc'
      · cases k with
        | zero =>
          rw [advColor_zero] at hadv
          subst hadv
          left
          exact Bool.not_eq_false _ ▸ h1
        | succ j =>
          right
          exact ⟨j, by omega, by rw [← advColor_succ]; exact hadv⟩

/-- C5: `findNextPlayer`'s out flags are sticky (a superset of the input
flags); a color is newly marked out only when it has no legal placement for
any available piece, orientation and anchor; when no game over is reported
the returned next color is not marked out and has at least one legal
placement; and game over is reported only when all four colors are marked
out in the returned flags. -/
theorem findNextPlayer_out_contract :
    ∀ (pc : Nat) (b : Board) (used : Fin 4 → List PieceId) (fm : Fin 4 → Bool)
      (sc : Fin 4) (out : Fin 4 → Bool) (ntp : Nat),
      (∀ c, out c = true →
        (findNextPlayer pc b used fm sc out ntp).updatedPlayersOut c = true) ∧
      (∀ c, (findNextPlayer pc b used fm sc out ntp).updatedPlayersOut c = true →
        out c = true ∨
        ¬ ∃ pid : PieceId, pid ∉ used c ∧
            ∃ s ∈ orientedShapes (PIECE_SHAPES pid), ∃ row col : Int,
              (isValidPlacement b row col s c (fm c)).valid = true) ∧
      ((findNextPlayer pc b used fm sc out ntp).gameOver = false →
        (findNextPlayer pc b used fm sc out ntp).updatedPlayersOut
          (findNextPlayer pc b used fm sc out ntp).nextPlayer = false ∧
        ∃ pid : PieceId,
          pid ∉ used (findNextPlayer pc b used fm sc out ntp).nextPlayer ∧
          ∃ s ∈ orientedShapes (PIECE_SHAPES pid), ∃ row col : Int,
            (isValidPlacement b row col s
              (findNextPlayer pc b used fm sc out ntp).nextPlayer
              (fm (findNextPlayer pc b used fm sc out ntp).nextPlayer)).valid =
              true) ∧
      ((findNextPlayer pc b used fm sc out ntp).gameOver = true →
        ∀ c, (findNextPlayer pc b used fm sc out ntp).updatedPlayersOut c =
          true) := by
  intro pc b used fm sc out ntp
  unfold findNextPlayer
  refine ⟨?_, ?_, ?_, ?_⟩
  · intro c hc
    exact fnpLoop_preserves_out pc b used fm sc 4 (stepColor sc) out _ [] c hc
  · intro c hc
    rcases fnpLoop_marks_only_stuck pc b used fm sc 4 (stepColor sc) out _ [] c
      hc with h | h
    · exact Or.inl h
    · refine Or.inr fun hex => ?_
      rw [← hasValidMoves_iff] at hex
      simp [h] at hex
  · intro hgo
    obtain ⟨h1, h2⟩ :=
      fnpLoop_success pc b used fm sc 4 (stepColor sc) out _ [] hgo
    exact ⟨h1, hasValidMoves_iff.mp h2⟩
  · intro hgo c
    refine fnpLoop_gameOver_all_out pc b used fm sc 4 (stepColor sc) out _ []
      ?_ hgo c
    intro c'
    obtain ⟨k, hk⟩ := advColor_coverage sc c'
    exact Or.inr ⟨k.val, k.isLt, hk⟩

/-- C5 witness: with colors 1–3 fully out of pieces, color 0 holding only
`MONO` and all first moves pending, advancing from color 3 reaches color 0,
which is not marked out and has a legal placement. -/
theorem findNextPlayer_out_contract_witness :
    (findNextPlayer 4 emptyBoard usedAllButMono (fun _ => true) 3
      (fun _ => false) 0).updatedPlayersOut
      (findNextPlayer 4 emptyBoard usedAllButMono (fun _ => true) 3
        (fun _ => false) 0).nextPlayer = false ∧
    ∃ pid : PieceId,
      pid ∉ usedAllButMono (findNextPlayer 4 emptyBoard usedAllButMono
        (fun _ => true) 3 (fun _ => false) 0).nextPlayer ∧
      ∃ s ∈ orientedShapes (PIECE_SHAPES pid), ∃ row col : Int,
        (isValidPlacement emptyBoard row col s
          (findNextPlayer 4 emptyBoard usedAllButMono (fun _ => true) 3
            (fun _ => false) 0).nextPlayer
          ((fun _ => true) (findNextPlayer 4 emptyBoard usedAllButMono
            (fun _ => true) 3 (fun _ => false) 0).nextPlayer)).valid = true :=
  (findNextPlayer_out_contract 4 emptyBoard usedAllButMono (fun _ => true) 3
    (fun _ => false) 0).2.2.1 (by decide)

/-! ## C8, C9 — `placePiece`: duplicates, atomicity, frame -/

/-- A fresh-game-like state: empty board, color 0 to move, color 0 holding
only `MONO` (all other colors out of pieces), all first moves pending. -/
def stateW : GameState :=
  { playerCount := 4, board := emptyBoard, currentPlayer := 0,
    usedPieces := usedAllButMono, firstMoves := fun _ => true,
    playersOut := fun _ => false, neutralTurnPlayer := 0, history := [],
    gameOver := false }

/-- A state in which color 0 has already recorded `MONO` as used. -/
def stateDup : GameState :=
  { playerCount := 4, board := emptyBoard, currentPlayer := 0,
    usedPieces := fun _ => [.MONO], firstMoves := fun _ => true,
    playersOut := fun _ => false, neutralTurnPlayer := 0, history := [],
    gameOver := false }

lemma getCell_coe (b : Board) (i j : Fin 20) :
    getCell b (i.val : Int) (j.val : Int) = b i j := by
  unfold getCell
  rw [dif_pos (by refine ⟨by omega, by omega, by omega, by omega⟩)]
  congr 1

lemma coversCell_iff {shape : Shape} {row col : Int} {i j : Fin 20} :
    coversCell shape row col i j = true ↔
      ∃ (r : Fin (shapeHeight shape)) (c : Fin (shapeWidth shape)),
        cellAt shape r.val c.val = 1 ∧ row + (r.val : Int) = (i.val : Int) ∧
        col + (c.val : Int) = (j.val : Int) := by
  simp only [coversCell, any_range_iff, Bool.and_eq_true, beq_iff_eq]
  constructor
  · rintro ⟨r, c, ⟨⟨h1, h2⟩, h3⟩⟩; exact ⟨r, c, h1, h2, h3⟩
  · rintro ⟨r, c, h1, h2, h3⟩; exact ⟨r, c, ⟨⟨h1, h2⟩, h3⟩⟩

lemma hasOverlap_iff {b : Board} {row col : Int} {shape : Shape} :
    hasOverlap b row col shape = true ↔
      ∃ (r : Fin (shapeHeight shape)) (c : Fin (shapeWidth shape)),
        cellAt shape r.val c.val = 1 ∧
        (getCell b (row + (r.val : Int)) (col + (c.val : Int))).isSome := by
  simp only [hasOverlap, any_range_iff, Bool.and_eq_true, beq_iff_eq,
    Option.isSome_iff_exists]

/-- A filled shape cell covering an occupied board cell is an overlap. -/
lemma coversCell_occupied_overlap {b : Board} {shape : Shape} {row col : Int}
    {i j : Fin 20} {v : Fin 4} (hc : coversCell shape row col i j = true)
    (hb : b i j = some v) : hasOverlap b row col shape = true := by
  obtain ⟨r, c, h1, h2, h3⟩ := coversCell_iff.mp hc
  refine hasOverlap_iff.mpr ⟨r, c, h1, ?_⟩
  rw [h2, h3, getCell_coe, hb]
  rfl

/-- C8 counterexample: `placePiece` does not check the piece id against the
acting color's used list — with `MONO` already recorded as used by color 0,
a geometrically valid `MONO` placement still succeeds and the color's used
list then holds `MONO` twice. -/
theorem placePiece_duplicate_succeeds :
    PieceId.MONO ∈ stateDup.usedPieces stateDup.currentPlayer ∧
    (placePiece stateDup 0 0 [[1]] .MONO).success = true ∧
    (placePiece stateDup 0 0 [[1]] .MONO).state.usedPieces 0 =
      [PieceId.MONO, PieceId.MONO] := by
  refine ⟨by decide, by decide, by decide⟩

/-- C8 (amended): `placePiece` itself never consults UsedPieces — it succeeds
whenever the geometric validation passes, even for an already-used piece id
(see the counterexample) — so the no-duplicates invariant is preserved
exactly when the caller supplies a not-yet-used piece id: starting from
duplicate-free used lists, calling `placePiece` with a piece id that the
acting color has not used leaves every color's used list duplicate-free
(whether the call succeeds or fails). -/
theorem placePiece_preserves_nodup_for_fresh_piece :
    ∀ (s : GameState) (row col : Int) (shape : Shape) (pid : PieceId),
      pid ∉ s.usedPieces s.currentPlayer →
      (∀ c, (s.usedPieces c).Nodup) →
      ∀ c, ((placePiece s row col shape pid).state.usedPieces c).Nodup := by
  intro s row col shape pid hfresh hnd c
  by_cases hv : (isValidPlacement s.board row col shape s.currentPlayer
      (s.firstMoves s.currentPlayer)).valid = false
  · simpa [placePiece, hv] using hnd c
  · by_cases hc : c = s.currentPlayer
    · subst hc
      simp only [placePiece, if_neg hv, if_pos rfl]
      simpa [List.nodup_append] using ⟨hnd s.currentPlayer, hfresh⟩
    · simpa [placePiece, hv, hc] using hnd c

/-- C8 witness: from the duplicate-free state `stateW` (color 0 still owns
`MONO`), placing `MONO` keeps every color's used list duplicate-free. -/
theorem placePiece_preserves_nodup_witness :
    ((placePiece stateW 0 0 [[1]] .MONO).state.usedPieces 0).Nodup ∧
    ((placePiece stateW 0 0 [[1]] .MONO).state.usedPieces 1).Nodup ∧
    ((placePiece stateW 0 0 [[1]] .MONO).state.usedPieces 2).Nodup ∧
    ((placePiece stateW 0 0 [[1]] .MONO).state.usedPieces 3).Nodup :=
  have h := placePiece_preserves_nodup_for_fresh_piece stateW 0 0 [[1]] .MONO
    (by decide) (by decide)
  ⟨h 0, h 1, h 2, h 3⟩

/-- C9: `placePiece` is atomic and frame-respecting: on a failed validation
the state is returned untouched; on success the new board is the old board
with exactly the covered cells set to the acting color, and every previously
occupied cell keeps its occupant. -/
theorem placePiece_atomic_frame :
    ∀ (s : GameState) (row col : Int) (shape : Shape) (pid : PieceId),
    ((placePiece s row col shape pid).success = false →
      (placePiece s row col shape pid).state = s) ∧
    ((placePiece s row col shape pid).success = true →
      (∀ i j : Fin 20, (placePiece s row col shape pid).state.board i j =
        if coversCell shape row col i j then some s.currentPlayer
        else s.board i j) ∧
      (∀ (i j : Fin 20) (v : Fin 4), s.board i j = some v →
        (placePiece s row col shape pid).state.board i j = some v)) := by
  intro s row col shape pid
  by_cases hv : (isValidPlacement s.board row col shape s.currentPlayer
      (s.firstMoves s.currentPlayer)).valid = false
  · constructor
    · intro _; simp [placePiece, hv]
    · intro hsucc; exfalso; simp [placePiece, hv] at hsucc
  · have hvt : (isValidPlacement s.board row col shape s.currentPlayer
        (s.firstMoves s.currentPlayer)).valid = true := by
      revert hv
      cases (isValidPlacement s.board row col shape s.currentPlayer
        (s.firstMoves s.currentPlayer)).valid <;> simp
    constructor
    · intro hfail; exfalso; simp [placePiece, hv] at hfail
    · intro _
      constructor
      · intro i j
        simp [placePiece, hv, commitShape]
      · intro i j v hb
        have hnc : coversCell shape row col i j = false := by
          by_contra h
          have hct : coversCell shape row col i j = true := by
            revert h; cases coversCell shape row col i j <;> simp
          have hov := coversCell_occupied_overlap hct hb
          have hno := (isValidPlacement_valid_iff.mp hvt).2.1
          simp [hov] at hno
        simp [placePiece, hv, commitShape, hnc, hb]

/-- C9 witness: on `stateW`, the off-corner first move at (5,5) fails and
leaves the state untouched, and the corner move at (0,0) succeeds and writes
color 0 into cell (0,0). -/
theorem placePiece_atomic_frame_witness :
    (placePiece stateW 5 5 [[1]] .MONO).state = stateW ∧
    (placePiece stateW 0 0 [[1]] .MONO).state.board 0 0 = some 0 :=
  ⟨(placePiece_atomic_frame stateW 5 5 [[1]] .MONO).1 (by decide),
   by
     have h :=
       ((placePiece_atomic_frame stateW 0 0 [[1]] .MONO).2 (by decide)).1 0 0
     rw [h]
     decide⟩

/-! ## C10 — the selectors choose from the input list -/

lemma mem_of_get?_sorted_take {scored : List ScoredMove} {kk n : Nat}
    {sm : ScoredMove}
    (h : ((List.insertionSort scoreDesc scored).take kk).get? n = some sm) :
    sm ∈ scored := by
  have h1 : sm ∈ (List.insertionSort scoreDesc scored).take kk :=
    List.get?_mem h
  have h2 : sm ∈ List.insertionSort scoreDesc scored :=
    List.mem_of_mem_take h1
  exact (List.perm_insertionSort scoreDesc scored).mem_iff.mp h2

lemma toMove_mem_of_mem_map {score : Move → ℚ} {moves : List Move}
    {sm : ScoredMove} (h : sm ∈ moves.map fun m => ScoredMove.mk m (score m)) :
    sm.toMove ∈ moves := by
  obtain ⟨m, hm, rfl⟩ := List.mem_map.mp h
  exact hm

/-- Picking at index `⌊q·len⌋` with `0 ≤ q < 1` inside a non-empty list
always succeeds. -/
lemma get?_pickIndex_isSome {l : List ScoredMove} {q : ℚ} (hq0 : 0 ≤ q)
    (hq1 : q < 1) (hl : l ≠ []) :
    ∃ sm, l.get? (pickIndex q l.length) = some sm := by
  have hlen : 0 < l.length := List.length_pos.mpr hl
  have hidx : pickIndex q l.length < l.length := by
    unfold pickIndex
    have hql : q * (l.length : ℚ) < (l.length : ℚ) := by
      calc q * (l.length : ℚ) < 1 * (l.length : ℚ) :=
            mul_lt_mul_of_pos_right hq1 (by exact_mod_cast hlen)
        _ = (l.length : ℚ) := one_mul _
    have h0 : 0 ≤ q * (l.length : ℚ) :=
      mul_nonneg hq0 (by positivity)
    exact (Nat.floor_lt h0).mpr (by exact_mod_cast hql)
  exact ⟨l.get ⟨_, hidx⟩, List.get?_eq_get hidx⟩

lemma selectEasyMove_isSome {score : Move → ℚ} {q : ℚ} (hq0 : 0 ≤ q)
    (hq1 : q < 1) {moves : List Move} (hne : moves ≠ []) :
    ∃ sm, selectEasyMove score q moves = some sm := by
  unfold selectEasyMove
  apply get?_pickIndex_isSome hq0 hq1
  have hlen : 0 < moves.length := List.length_pos.mpr hne
  have hsorted : (List.insertionSort scoreDesc
      (moves.map fun m => ScoredMove.mk m (score m))).length = moves.length := by
    rw [(List.perm_insertionSort scoreDesc _).length_eq, List.length_map]
  rw [← List.length_pos, List.length_take, hsorted]
  have h1 : 1 ≤ max 1 (Nat.floor ((moves.length : ℚ) * (0.4 : ℚ))) :=
    le_max_left _ _
  omega

lemma selectMediumMove_isSome {score : Move → ℚ} {q : ℚ} (hq0 : 0 ≤ q)
    (hq1 : q < 1) {moves : List Move} (hne : moves ≠ []) :
    ∃ sm, selectMediumMove score q moves = some sm := by
  unfold selectMediumMove
  apply get?_pickIndex_isSome hq0 hq1
  have hlen : 0 < moves.length := List.length_pos.mpr hne
  have hsorted : (List.insertionSort scoreDesc
      (moves.map fun m => ScoredMove.mk m (score m))).length = moves.length := by
    rw [(List.perm_insertionSort scoreDesc _).length_eq, List.length_map]
  rw [← List.length_pos, List.length_take, hsorted]
  omega

lemma selectHardMove_isSome {score : Move → ℚ} {q : ℚ} (hq0 : 0 ≤ q)
    (hq1 : q < 1) {moves : List Move} (hne : moves ≠ []) :
    ∃ sm, selectHardMove score q moves = some sm := by
  unfold selectHardMove
  apply get?_pickIndex_isSome hq0 hq1
  have hlen : 0 < moves.length := List.length_pos.mpr hne
  have hsorted : (List.insertionSort scoreDesc
      (moves.map fun m => ScoredMove.mk m (score m))).length = moves.length := by
    rw [(List.perm_insertionSort scoreDesc _).length_eq, List.length_map]
  rw [← List.length_pos, List.length_take, hsorted]
  omega

lemma selectEasyMove_mem {score : Move → ℚ} {q : ℚ} {moves : List Move}
    {sm : ScoredMove} (h : selectEasyMove score q moves = some sm) :
    sm.toMove ∈ moves := by
  unfold selectEasyMove at h
  exact toMove_mem_of_mem_map (mem_of_get?_sorted_take h)

lemma selectMediumMove_mem {score : Move → ℚ} {q : ℚ} {moves : List Move}
    {sm : ScoredMove} (h : selectMediumMove score q moves = some sm) :
    sm.toMove ∈ moves := by
  unfold selectMediumMove at h
  exact toMove_mem_of_mem_map (mem_of_get?_sorted_take h)

lemma selectHardMove_mem {score : Move → ℚ} {q : ℚ} {moves : List Move}
    {sm : ScoredMove} (h : selectHardMove score q moves = some sm) :
    sm.toMove ∈ moves := by
  unfold selectHardMove at h
  exact toMove_mem_of_mem_map (mem_of_get?_sorted_take h)

lemma selectMove_eq_none_iff {score : Move → ℚ} {q : ℚ} (hq0 : 0 ≤ q)
    (hq1 : q < 1) (moves : List Move) (difficulty : String) :
    selectMove score q moves difficulty = none ↔ moves = [] := by
  constructor
  · intro h
    by_contra hne
    unfold selectMove at h
    rw [if_neg (by simpa [List.length_eq_zero] using hne)] at h
    split at h
    · obtain ⟨sm, hsm⟩ := selectEasyMove_isSome hq0 hq1 hne; rw [hsm] at h; cases h
    · obtain ⟨sm, hsm⟩ := selectMediumMove_isSome hq0 hq1 hne; rw [hsm] at h; cases h
    · obtain ⟨sm, hsm⟩ := selectHardMove_isSome hq0 hq1 hne; rw [hsm] at h; cases h
    · obtain ⟨sm, hsm⟩ := selectEasyMove_isSome hq0 hq1 hne; rw [hsm] at h; cases h
  · intro h
    subst h
    simp [selectMove]

lemma selectMove_mem {score : Move → ℚ} {q : ℚ} {moves : List Move}
    {difficulty : String} {sm : ScoredMove}
    (h : selectMove score q moves difficulty = some sm) : sm.toMove ∈ moves := by
  unfold selectMove at h
  split at h
  · exact absurd h (by simp)
  · split at h
    · exact selectEasyMove_mem h
    · exact selectMediumMove_mem h
    · exact selectHardMove_mem h
    · exact selectEasyMove_mem h

/-- C10: `selectMove` returns null exactly on an empty move list; whenever it
returns a move, under every difficulty string, the move is drawn from the
input list (the underlying move record is a member; only the score field is
added); and `generateAIMove` returns null exactly when `generateAllMoves`
produced no legal move. -/
theorem selectMove_from_input_list :
    ∀ (score : Move → ℚ) (q : ℚ), 0 ≤ q → q < 1 →
    ∀ (moves : List Move) (difficulty : String) (b : Board) (p : Fin 4)
      (used : Fin 4 → List PieceId) (fm : Bool),
      ((selectMove score q moves difficulty = none) ↔ moves = []) ∧
      (∀ sm : ScoredMove, selectMove score q moves difficulty = some sm →
        sm.toMove ∈ moves) ∧
      ((generateAIMove score q b p used fm difficulty = none) ↔
        generateAllMoves b p used fm = []) := by
  intro score q hq0 hq1 moves difficulty b p used fm
  refine ⟨selectMove_eq_none_iff hq0 hq1 moves difficulty,
    fun sm h => selectMove_mem h, ?_⟩
  constructor
  · intro h
    by_cases hlen : (generateAllMoves b p used fm).length = 0
    · exact List.length_eq_zero.mp hlen
    · simp only [generateAIMove, if_neg hlen] at h
      exact (selectMove_eq_none_iff hq0 hq1 _ difficulty).mp h
  · intro h
    simp [generateAIMove, h]

/-- C10 witness: on a singleton move list `selectMove` does not return null,
and with every piece already used `generateAIMove` returns null because
`generateAllMoves` is empty. -/
theorem selectMove_from_input_list_witness :
    selectMove (fun _ => (0 : ℚ)) 0 [monoMove] "easy" ≠ none ∧
    generateAIMove (fun _ => (0 : ℚ)) 0 emptyBoard 0 (fun _ => pieceIdsInOrder)
      true "easy" = none :=
  ⟨fun h => by
      have hempty := (selectMove_from_input_list (fun _ => 0) 0 (by norm_num)
        (by norm_num) [monoMove] "easy" emptyBoard 0 (fun _ => pieceIdsInOrder)
        true).1.mp h
      exact absurd hempty (by simp),
   (selectMove_from_input_list (fun _ => 0) 0 (by norm_num) (by norm_num)
      (generateAllMoves emptyBoard 0 (fun _ => pieceIdsInOrder) true) "easy"
      emptyBoard 0 (fun _ => pieceIdsInOrder) true).2.2.mpr (by decide)⟩

end Blockus
